import Mathlib

/-!
Shallow embedding of `repustate/go-cdb` (`src/cdb.go`).

The source file holds two variants of the same package: an mmap-backed
variant (a whole-file byte slice) and a generic `io.ReaderAt` variant with a
per-context scratch buffer.  Both share the same probe algorithm in `find`;
they differ only in how bytes are fetched and in which Go error surfaces
when a fetch goes out of range:

* mmap variant: an out-of-range slice raises a runtime bounds panic, which
  the deferred `recover` in `find` converts into a returned error distinct
  from `io.EOF`; modelled as `GoError.bounds`.
* reader variant: `ReadAt` on a file at an out-of-range offset fails with
  `io.EOF` (the `os.File` realisation of the `io.ReaderAt` contract used by
  `Open`), which the `panic`/`recover` pair in `find`/`readNums`/`match`
  returns verbatim; modelled as `GoError.eof` - the same value `find` uses
  for "not found".

The database file is byte-addressable storage: a size and a byte function.
All 32-bit machine arithmetic is made explicit with `w32`.  `find`
additionally returns the list of storage accesses it performed (8-byte
`readNums` reads and key-comparison starts), so that claims of the form
"no further read is attempted" are statable.
-/

namespace Cdb

def W : Nat := 4294967296

/-- Reduction modulo 2^32, the unsigned 32-bit wraparound of Go `uint32`. -/
def w32 (n : Nat) : Nat := n % W

/-- Modelled from the spec: the function `checksum` is called at
`src/cdb.go:135` and `src/cdb.go:303` but its definition is not part of
`src/`.  The spec defines it as: seed `h = 5381`; for each input byte `c`,
`h = ((h << 5) + h) ^ c`, with unsigned 32-bit wraparound arithmetic. -/
def checksum (key : List Nat) : Nat :=
  key.foldl (fun h c => (w32 ((h <<< 5) + h)) ^^^ (c % 256)) 5381

/-- The `Context` struct of `src/cdb.go` (both variants declare the same
numeric fields; the reader variant adds a 64-byte scratch buffer whose
length is a fixed constant of `NewContext`, folded into `matchChunksF`). -/
structure Context where
  loop : Nat
  khash : Nat
  kpos : Nat
  hpos : Nat
  hslots : Nat
  dpos : Nat
  dlen : Nat
deriving DecidableEq

/-- `NewContext` (`src/cdb.go:82` and `src/cdb.go:248`): all numeric
fields zero. -/
def NewContext : Context := ⟨0, 0, 0, 0, 0, 0, 0⟩

/-- The Go errors observable from `find`: `io.EOF` (also the not-found
signal) and the recovered runtime bounds error of the mmap variant. -/
inductive GoError
  | eof
  | bounds
deriving DecidableEq

/-- The two backing strategies present in the source file. -/
inductive Variant
  | mmap
  | reader
deriving DecidableEq

/-- The error produced by an out-of-range 8-byte `readNums` fetch: a slice
bounds panic in the mmap variant (`src/cdb.go:178`), `io.EOF` from a
file-backed `ReadAt` in the reader variant (`src/cdb.go:366`). -/
def readErr : Variant → GoError
  | .mmap => .bounds
  | .reader => .eof

/-- The immutable database file: byte-addressable storage of a known
size.  `byte` values are reduced mod 256 on access (Go bytes). -/
structure Storage where
  size : Nat
  byte : Nat → Nat

/-- Byte `i` of the file. Every access the code performs is bounds-guarded
against `size` before the byte is used. -/
def byteAt (s : Storage) (i : Nat) : Nat := s.byte i % 256

/-- The contiguous byte segment of length `n` starting at `pos` (a Go
slice `data[pos : pos+n]`). -/
def seg (s : Storage) (pos n : Nat) : List Nat :=
  (List.range n).map fun j => byteAt s (pos + j)

/-- `binary.LittleEndian.Uint32` of the 4 bytes at `pos`. -/
def le32 (s : Storage) (pos : Nat) : Nat :=
  byteAt s pos + 256 * byteAt s (pos + 1) +
    65536 * byteAt s (pos + 2) + 16777216 * byteAt s (pos + 3)

/-- `readNums` (`src/cdb.go:177` and `src/cdb.go:365`): an 8-byte read at
`pos` decoded as two little-endian `uint32`; fails when the read crosses
the end of the file. -/
def readNumsAt (s : Storage) (pos : Nat) : Option (Nat × Nat) :=
  if pos + 8 ≤ s.size then some (le32 s pos, le32 s (pos + 4))
  else none

/-- `match` of the mmap variant (`src/cdb.go:173`): one whole-range slice
of the file compared against the key with `bytes.Equal`; slicing past the
end panics (a bounds error). -/
def matchMmap (s : Storage) (key : List Nat) (pos : Nat) : Except GoError Bool :=
  if pos + key.length ≤ s.size then .ok (decide (seg s pos key.length = key))
  else .error .bounds

/-- The chunk loop of `match` in the reader variant (`src/cdb.go:346`):
the key is compared in chunks of at most 64 bytes (the scratch buffer
created by `NewContext`); a chunk read crossing the end of the file fails
with `io.EOF`; the first unequal chunk returns `false`.  The fuel is the
remaining key length, which bounds the number of chunks. -/
def matchChunksF (s : Storage) : Nat → List Nat → Nat → Except GoError Bool
  | _, [], _ => .ok true
  | 0, _ :: _, _ => .ok true
  | fuel + 1, r :: rs, pos =>
    if pos + min 64 (r :: rs).length ≤ s.size then
      if seg s pos (min 64 (r :: rs).length) = (r :: rs).take (min 64 (r :: rs).length) then
        matchChunksF s fuel ((r :: rs).drop (min 64 (r :: rs).length))
          (pos + min 64 (r :: rs).length)
      else .ok false
    else .error .eof

/-- `match` of the reader variant (`src/cdb.go:346`). -/
def matchReader (s : Storage) (key : List Nat) (pos : Nat) : Except GoError Bool :=
  matchChunksF s key.length key pos

/-- The key comparison of the chosen variant. -/
def matchAt : Variant → Storage → List Nat → Nat → Except GoError Bool
  | .mmap, s, key, pos => matchMmap s key pos
  | .reader, s, key, pos => matchReader s key pos

/-- A storage access performed by `find`: an 8-byte `readNums` read at a
position, or the start of a key comparison at a position. -/
inductive Ev
  | nums (pos : Nat)
  | keycmp (pos : Nat)
deriving DecidableEq

/-- The slot-cursor advance of the probe loop (`src/cdb.go:154` and
`src/cdb.go:322`): `kpos += 8`, wrapping back to `hpos` exactly when it
reaches `hpos + (hslots << 3)` (all in `uint32` arithmetic). -/
def nextKpos (ctx : Context) : Nat :=
  if w32 (ctx.kpos + 8) = w32 (ctx.hpos + w32 (ctx.hslots <<< 3)) then ctx.hpos
  else w32 (ctx.kpos + 8)

/-- The probe loop of `find` (`src/cdb.go:148` and `src/cdb.go:316`).  The
Go loop runs while `loop < hslots` with `hslots` fixed and `loop`
incremented once per iteration, so it performs exactly `hslots - loop`
iterations unless it returns early; the fuel argument is that count
(`loop + 1` never wraps since `loop < hslots < 2^32` in any state the
code reaches).  Returns the Go error result (`none` is a successful
match), the final context, and the trace of storage accesses. -/
def findLoop (v : Variant) (s : Storage) (key : List Nat) :
    Nat → Context → Option GoError × Context × List Ev
  | 0, ctx => (some .eof, ctx, [])
  | fuel + 1, ctx =>
    match readNumsAt s ctx.kpos with
    | none => (some (readErr v), ctx, [.nums ctx.kpos])
    | some (h, pos) =>
      if pos = 0 then (some .eof, ctx, [.nums ctx.kpos])
      else
        let ctx1 : Context := { ctx with loop := ctx.loop + 1, kpos := nextKpos ctx }
        if h = ctx.khash then
          match readNumsAt s pos with
          | none => (some (readErr v), ctx1, [.nums ctx.kpos, .nums pos])
          | some (rklen, rdlen) =>
            if rklen = w32 key.length then
              match matchAt v s key (w32 (pos + 8)) with
              | .error e => (some e, ctx1, [.nums ctx.kpos, .nums pos, .keycmp (w32 (pos + 8))])
              | .ok true =>
                (none, { ctx1 with dlen := rdlen, dpos := w32 (pos + 8 + w32 key.length) },
                  [.nums ctx.kpos, .nums pos, .keycmp (w32 (pos + 8))])
              | .ok false =>
                let r := findLoop v s key fuel ctx1
                (r.1, r.2.1, .nums ctx.kpos :: .nums pos :: .keycmp (w32 (pos + 8)) :: r.2.2)
            else
              let r := findLoop v s key fuel ctx1
              (r.1, r.2.1, .nums ctx.kpos :: .nums pos :: r.2.2)
        else
          let r := findLoop v s key fuel ctx1
          (r.1, r.2.1, .nums ctx.kpos :: r.2.2)

/-- The header-entry offset computed at `src/cdb.go:136` and
`src/cdb.go:304`: `(h << 3) & 2047` in `uint32` arithmetic. -/
def headerOff (h : Nat) : Nat := (w32 (h <<< 3)) &&& 2047

/-- `find` (`src/cdb.go:124` and `src/cdb.go:292`): on a fresh key
(`loop == 0`) read the header entry, stop on an empty bucket, otherwise
initialise the probe cursor; then run the probe loop. -/
def find (v : Variant) (s : Storage) (key : List Nat) (ctx : Context) :
    Option GoError × Context × List Ev :=
  if ctx.loop = 0 then
    let h := checksum key
    match readNumsAt s (headerOff h) with
    | none => (some (readErr v), ctx, [.nums (headerOff h)])
    | some (hp, hs) =>
      let ctx0 : Context := { ctx with hpos := hp, hslots := hs }
      if hs = 0 then (some .eof, ctx0, [.nums (headerOff h)])
      else
        let ctx1 : Context :=
          { ctx0 with khash := h, kpos := w32 (hp + w32 (((h >>> 8) % hs) <<< 3)) }
        let r := findLoop v s key hs ctx1
        (r.1, r.2.1, .nums (headerOff h) :: r.2.2)
  else
    findLoop v s key (ctx.hslots - ctx.loop) ctx

/-- `FindStart` (`src/cdb.go:102` and `src/cdb.go:269`). -/
def FindStart (ctx : Context) : Context := { ctx with loop := 0 }

/-- `FindNext` (`src/cdb.go:108` and `src/cdb.go:275`): one `find` step on
the caller's context; the returned data view is `(dpos, dlen)` of the
resulting context when the step succeeds. -/
def FindNext (v : Variant) (s : Storage) (key : List Nat) (ctx : Context) :
    Option GoError × Context × List Ev :=
  find v s key ctx

/-- `Find` (`src/cdb.go:118` and `src/cdb.go:286`): `FindStart` then
`FindNext`. -/
def Find (v : Variant) (s : Storage) (key : List Nat) (ctx : Context) :
    Option GoError × Context × List Ev :=
  FindNext v s key (FindStart ctx)

/-!
Concrete database files used as witnesses and counterexamples.  The key is
always `"a" = [97]`, whose hash is `checksum [97] = 177604`; its low byte
is `196`, so its header entry sits at offset `196 * 8 = 1568`, and its
probe start index within a table of `hslots` slots is `693 % hslots`
(since `177604 >>> 8 = 693`).
-/

/-- A well-formed database holding `"a" -> "X"`, built so that the probe
must wrap around the slot table: header entry 196 is `(2048, 2)`; the
start index is `693 % 2 = 1`; slot 1 (at 2056) is occupied by a colliding
entry with a different hash, and the matching slot is slot 0 (at 2048),
which the probe reaches only after wrapping.  The record sits at 2064:
`keyLen 1, dataLen 1, "a", "X"`. -/
def cfile5 : Storage :=
  ⟨2074, fun i =>
    if 1568 ≤ i ∧ i < 1576 then [0, 8, 0, 0, 2, 0, 0, 0].getD (i - 1568) 0
    else if 2048 ≤ i then
      [196, 181, 2, 0, 16, 8, 0, 0, 0, 0, 0, 0, 1, 0, 0, 0,
       1, 0, 0, 0, 1, 0, 0, 0, 97, 88].getD (i - 2048) 0
    else 0⟩

/-- A well-formed database holding `"a"` twice (values `"1"` then `"2"`):
header entry 196 is `(2048, 2)`; slot 0 (at 2048) points to the record at
2074 and slot 1 (at 2056) to the record at 2064; the probe starts at slot
1, so the first match is the record at 2064 (`"1"`, data byte at 2073)
and the second, after resuming, the record at 2074 (`"2"`, data byte at
2083). -/
def cfile3 : Storage :=
  ⟨2084, fun i =>
    if 1568 ≤ i ∧ i < 1576 then [0, 8, 0, 0, 2, 0, 0, 0].getD (i - 1568) 0
    else if 2048 ≤ i then
      [196, 181, 2, 0, 26, 8, 0, 0, 196, 181, 2, 0, 16, 8, 0, 0,
       1, 0, 0, 0, 1, 0, 0, 0, 97, 49,
       1, 0, 0, 0, 1, 0, 0, 0, 97, 50].getD (i - 2048) 0
    else 0⟩

/-- A corrupt database: header entry 196 is `(2048, 1)` and the single
slot (at 2048) stores the hash of `"a"` with `recordPos = 5000`, which
points past the end of the 2056-byte file, so the record read at 5000 is
out of range. -/
def cfile1 : Storage :=
  ⟨2056, fun i =>
    if 1568 ≤ i ∧ i < 1576 then [0, 8, 0, 0, 1, 0, 0, 0].getD (i - 1568) 0
    else if 2048 ≤ i then [196, 181, 2, 0, 136, 19, 0, 0].getD (i - 2048) 0
    else 0⟩

/-! Helper lemmas. -/

lemma headerOff_eq (h : Nat) : headerOff h = (h &&& 255) * 8 := by
  have h255 : h &&& 255 = h % 256 := Nat.and_pow_two_sub_one_eq_mod h 8
  have h2047 : (w32 (h <<< 3)) &&& 2047 = (w32 (h <<< 3)) % 2048 :=
    Nat.and_pow_two_sub_one_eq_mod _ 11
  rw [headerOff, h2047, h255, w32, W, Nat.shiftLeft_eq]
  norm_num
  have hm := Nat.mul_mod_mul_right 8 h 256
  norm_num at hm
  exact hm

lemma seg_length (s : Storage) (pos n : Nat) : (seg s pos n).length = n := by
  simp [seg]

lemma seg_split (s : Storage) (pos c m : Nat) :
    seg s pos (c + m) = seg s pos c ++ seg s (pos + c) m := by
  unfold seg
  rw [List.range_add, List.map_append, List.map_map]
  congr 1
  apply List.map_congr_left
  intro j _
  simp [Function.comp]
  congr 1
  omega

lemma seg_eq_iff (s : Storage) (pos c : Nat) (rest : List Nat) (hc : c ≤ rest.length) :
    (seg s pos rest.length = rest) ↔
      (seg s pos c = rest.take c ∧ seg s (pos + c) (rest.length - c) = rest.drop c) := by
  have e1 : seg s pos rest.length = seg s pos c ++ seg s (pos + c) (rest.length - c) := by
    conv_lhs => rw [show rest.length = c + (rest.length - c) by omega]
    exact seg_split s pos c (rest.length - c)
  constructor
  · intro hw
    have happ : seg s pos c ++ seg s (pos + c) (rest.length - c) =
        rest.take c ++ rest.drop c := by
      rw [← e1, hw, List.take_append_drop]
    have hlen : (seg s pos c).length = (rest.take c).length := by
      simp [seg_length]; omega
    exact List.append_inj happ hlen
  · rintro ⟨h1, h2⟩
    rw [e1, h1, h2, List.take_append_drop]

lemma matchChunksF_full (s : Storage) :
    ∀ (fuel : Nat) (rest : List Nat) (pos : Nat),
      rest.length ≤ fuel → pos + rest.length ≤ s.size →
      matchChunksF s fuel rest pos = .ok (decide (seg s pos rest.length = rest)) := by
  intro fuel
  induction fuel with
  | zero =>
    intro rest pos hf hsz
    cases rest with
    | nil => simp [matchChunksF, seg]
    | cons r rs => simp at hf
  | succ n ih =>
    intro rest pos hf hsz
    cases rest with
    | nil => simp [matchChunksF, seg]
    | cons r rs =>
      rw [matchChunksF]
      have hlen : (r :: rs).length = rs.length + 1 := rfl
      rw [hlen] at hf hsz
      have hc1 : 1 ≤ min 64 (rs.length + 1) := by omega
      have hcle : min 64 (rs.length + 1) ≤ rs.length + 1 := by omega
      have hiff := seg_eq_iff s pos (min 64 (rs.length + 1)) (r :: rs) (by rw [hlen]; omega)
      rw [hlen] at hiff
      rw [hlen]
      rw [if_pos (by omega : pos + min 64 (rs.length + 1) ≤ s.size)]
      by_cases hch : seg s pos (min 64 (rs.length + 1)) = (r :: rs).take (min 64 (rs.length + 1))
      · rw [if_pos hch]
        have hih := ih ((r :: rs).drop (min 64 (rs.length + 1))) (pos + min 64 (rs.length + 1))
          (by rw [List.length_drop, hlen]; omega)
          (by rw [List.length_drop, hlen]; omega)
        rw [hih, List.length_drop, hlen]
        congr 1
        rw [decide_eq_decide, hiff]
        simp [hch]
      · rw [if_neg hch]
        have hnw : ¬ (seg s pos (rs.length + 1) = r :: rs) := fun hw => hch (hiff.1 hw).1
        simp [hnw]

lemma matchMmap_ok (s : Storage) (key : List Nat) (pos : Nat) (b : Bool)
    (h : matchMmap s key pos = .ok b) : matchReader s key pos = .ok b := by
  rw [matchMmap] at h
  split at h
  · rw [matchReader, matchChunksF_full s key.length key pos le_rfl (by assumption)]
    exact h
  · cases h

lemma matchMmap_error (s : Storage) (key : List Nat) (pos : Nat) (e : GoError)
    (h : matchMmap s key pos = .error e) : e = .bounds := by
  rw [matchMmap] at h
  split at h
  · cases h
  · cases h; rfl

lemma matchAt_mmap (s : Storage) (key : List Nat) (pos : Nat) :
    matchAt .mmap s key pos = matchMmap s key pos := rfl

lemma matchAt_reader (s : Storage) (key : List Nat) (pos : Nat) :
    matchAt .reader s key pos = matchReader s key pos := rfl

lemma findLoop_inv (v : Variant) (s : Storage) (key : List Nat) :
    ∀ (fuel : Nat) (ctx : Context),
      (findLoop v s key fuel ctx).2.1.hpos = ctx.hpos ∧
      (findLoop v s key fuel ctx).2.1.hslots = ctx.hslots ∧
      (findLoop v s key fuel ctx).2.1.khash = ctx.khash ∧
      ctx.loop ≤ (findLoop v s key fuel ctx).2.1.loop ∧
      (findLoop v s key fuel ctx).2.1.loop ≤ ctx.loop + fuel := by
  intro fuel
  induction fuel with
  | zero => intro ctx; simp [findLoop]
  | succ n ih =>
    intro ctx
    rw [findLoop]
    cases hr : readNumsAt s ctx.kpos with
    | none => simp
    | some p =>
      obtain ⟨h, pos⟩ := p
      by_cases hp : pos = 0
      · simp [hp]
      · by_cases hh : h = ctx.khash
        · simp only [hp, if_false, hh, if_true, if_pos, if_neg]
          cases hr2 : readNumsAt s pos with
          | none => simp
          | some q =>
            obtain ⟨rklen, rdlen⟩ := q
            by_cases hk : rklen = w32 key.length
            · simp only [hk, if_true, if_pos]
              cases hm : matchAt v s key (w32 (pos + 8)) with
              | error e => simp
              | ok b =>
                cases b with
                | true => simp
                | false =>
                  have := ih { ctx with loop := ctx.loop + 1, kpos := nextKpos ctx }
                  simp at this ⊢
                  omega
            · simp only [hk, if_false, if_neg]
              have := ih { ctx with loop := ctx.loop + 1, kpos := nextKpos ctx }
              simp at this ⊢
              omega
        · simp only [hp, if_false, hh, if_neg]
          have := ih { ctx with loop := ctx.loop + 1, kpos := nextKpos ctx }
          simp at this ⊢
          omega

lemma findLoop_agree (s : Storage) (key : List Nat) :
    ∀ (fuel : Nat) (ctx : Context),
      (findLoop .mmap s key fuel ctx).1 ≠ some .bounds →
      findLoop .reader s key fuel ctx = findLoop .mmap s key fuel ctx := by
  intro fuel
  induction fuel with
  | zero => intro ctx _; rfl
  | succ n ih =>
    intro ctx hb
    rw [findLoop] at hb ⊢
    conv_rhs => rw [findLoop]
    cases hr : readNumsAt s ctx.kpos with
    | none => simp only [hr, readErr] at hb; simp at hb
    | some p =>
      obtain ⟨h, pos⟩ := p
      simp only [hr] at hb ⊢
      by_cases hp : pos = 0
      · simp [hp]
      · simp only [hp, if_false] at hb ⊢
        by_cases hh : h = ctx.khash
        · simp only [hh, if_true] at hb ⊢
          cases hr2 : readNumsAt s pos with
          | none => simp only [hr2, readErr] at hb; simp at hb
          | some q =>
            obtain ⟨rklen, rdlen⟩ := q
            simp only [hr2] at hb ⊢
            by_cases hk : rklen = w32 key.length
            · simp only [hk, if_true] at hb ⊢
              cases hm : matchMmap s key (w32 (pos + 8)) with
              | error e =>
                have he : e = GoError.bounds := matchMmap_error _ _ _ _ hm
                subst he
                simp only [matchAt_mmap, hm] at hb
                simp at hb
              | ok b =>
                have hm2 : matchReader s key (w32 (pos + 8)) = .ok b :=
                  matchMmap_ok _ _ _ _ hm
                simp only [matchAt_mmap, hm] at hb ⊢
                simp only [matchAt_reader, hm2]
                cases b with
                | true => rfl
                | false => rw [ih _ hb]
            · simp only [hk, if_false] at hb ⊢
              rw [ih _ hb]
        · simp only [hh, if_false] at hb ⊢
          rw [ih _ hb]

lemma match_found_general (v : Variant) (s : Storage) (key : List Nat) (ctx : Context)
    (pos rdlen : Nat) (h0 : ctx.loop ≠ 0) (hlt : ctx.loop < ctx.hslots)
    (hr : readNumsAt s ctx.kpos = some (ctx.khash, pos)) (hp : pos ≠ 0)
    (hr2 : readNumsAt s pos = some (w32 key.length, rdlen))
    (hm : matchAt v s key (w32 (pos + 8)) = .ok true) :
    find v s key ctx =
      (none,
        { ctx with loop := ctx.loop + 1, kpos := nextKpos ctx,
                   dpos := w32 (pos + 8 + w32 key.length), dlen := rdlen },
        [.nums ctx.kpos, .nums pos, .keycmp (w32 (pos + 8))]) := by
  rw [find, if_neg h0]
  rw [show ctx.hslots - ctx.loop = (ctx.hslots - ctx.loop - 1) + 1 by omega, findLoop]
  simp [hr, hp, hr2, hm]

lemma truncated_general (s : Storage) (key : List Nat) (ctx : Context) (pos : Nat)
    (h0 : ctx.loop ≠ 0) (hlt : ctx.loop < ctx.hslots)
    (hr : readNumsAt s ctx.kpos = some (ctx.khash, pos)) (hp : pos ≠ 0)
    (hsz : s.size < pos + 8) :
    find .mmap s key ctx =
      (some .bounds, { ctx with loop := ctx.loop + 1, kpos := nextKpos ctx },
        [.nums ctx.kpos, .nums pos]) ∧
    find .reader s key ctx =
      (some .eof, { ctx with loop := ctx.loop + 1, kpos := nextKpos ctx },
        [.nums ctx.kpos, .nums pos]) := by
  have hr2 : readNumsAt s pos = none := by rw [readNumsAt, if_neg (by omega)]
  constructor <;>
  · rw [find, if_neg h0]
    rw [show ctx.hslots - ctx.loop = (ctx.hslots - ctx.loop - 1) + 1 by omega, findLoop]
    simp [hr, hp, hr2, readErr]

lemma wrap_step_general (v : Variant) (s : Storage) (key : List Nat) (fuel : Nat)
    (ctx : Context) (h pos : Nat)
    (hr : readNumsAt s ctx.kpos = some (h, pos)) (hp : pos ≠ 0) (hh : h ≠ ctx.khash) :
    findLoop v s key (fuel + 1) ctx =
      ((findLoop v s key fuel { ctx with loop := ctx.loop + 1, kpos := nextKpos ctx }).1,
       (findLoop v s key fuel { ctx with loop := ctx.loop + 1, kpos := nextKpos ctx }).2.1,
       .nums ctx.kpos ::
         (findLoop v s key fuel { ctx with loop := ctx.loop + 1, kpos := nextKpos ctx }).2.2) := by
  rw [findLoop]
  simp [hr, hp, hh]

/-! Claim theorems. -/

/-- Claim C8: the key hash used for header-bucket selection and slot
matching is: seed 5381; per byte `c`, `h = ((h << 5) + h) ^ c` in unsigned
32-bit arithmetic; so `checksum "" = 5381` and
`checksum "a" = (5381 * 33) XOR 97`.  (The `checksum` definition is
modelled from the spec, since its body is not part of `src/`.) -/
theorem checksum_spec :
    checksum [] = 5381 ∧
    checksum [97] = (5381 * 33) ^^^ 97 ∧
    (∀ (ks : List Nat) (c : Nat), c < 256 →
      checksum (ks ++ [c]) = (w32 ((checksum ks <<< 5) + checksum ks)) ^^^ c) := by
  refine ⟨by decide, by decide, ?_⟩
  intro ks c hc
  have hstep : checksum (ks ++ [c]) =
      (w32 ((checksum ks <<< 5) + checksum ks)) ^^^ (c % 256) := by
    rw [checksum, checksum, List.foldl_append]
    rfl
  rw [hstep, Nat.mod_eq_of_lt hc]

theorem checksum_spec_witness :
    98 < 256 ∧
    checksum ([97] ++ [98]) = (w32 ((checksum [97] <<< 5) + checksum [97])) ^^^ 98 :=
  ⟨by decide, checksum_spec.2.2 [97] 98 (by decide)⟩

/-- Claim C2: on the first step for a key (`loop = 0`) the engine reads
the 8-byte header entry at offset `(hash & 0xFF) * 8` - the offset the
code computes, `(h << 3) & 2047` in `uint32` arithmetic, equals
`(h & 0xFF) * 8` for every `h` - and stores the entry as
`(hpos, hslots)` in the context. -/
theorem header_entry_select :
    (∀ h : Nat, headerOff h = (h &&& 255) * 8) ∧
    (∀ (v : Variant) (s : Storage) (key : List Nat) (ctx : Context) (hp hs : Nat),
      ctx.loop = 0 → readNumsAt s (headerOff (checksum key)) = some (hp, hs) →
      (find v s key ctx).2.1.hpos = hp ∧ (find v s key ctx).2.1.hslots = hs ∧
      (find v s key ctx).2.2.head? = some (.nums ((checksum key &&& 255) * 8))) := by
  refine ⟨headerOff_eq, ?_⟩
  intro v s key ctx hp hs h0 hr
  rw [← headerOff_eq]
  rw [find, if_pos h0]
  simp only [hr]
  by_cases hz : hs = 0
  · subst hz; simp
  · simp only [hz, if_false]
    have hinv := findLoop_inv v s key hs
      ⟨ctx.loop, checksum key, w32 (hp + w32 (((checksum key >>> 8) % hs) <<< 3)),
        hp, hs, ctx.dpos, ctx.dlen⟩
    refine ⟨?_, ?_, ?_⟩
    · simpa using hinv.1
    · simpa using hinv.2.1
    · simp

theorem header_entry_select_witness :
    headerOff 177604 = (177604 &&& 255) * 8 ∧
    ((find .mmap cfile3 [97] NewContext).2.1.hpos = 2048 ∧
     (find .mmap cfile3 [97] NewContext).2.1.hslots = 2 ∧
     (find .mmap cfile3 [97] NewContext).2.2.head? =
       some (.nums ((checksum [97] &&& 255) * 8))) :=
  ⟨header_entry_select.1 177604,
   header_entry_select.2 .mmap cfile3 [97] NewContext 2048 2 (by decide) (by decide)⟩

/-- Claim C7: a header entry with `numSlots = 0` makes the first find step
return the not-found result immediately; the trace shows the header-entry
read is the only storage read performed (no slot read is attempted). -/
theorem empty_bucket_notfound (v : Variant) (s : Storage) (key : List Nat) (ctx : Context)
    (hp : Nat) (h0 : ctx.loop = 0)
    (hr : readNumsAt s (headerOff (checksum key)) = some (hp, 0)) :
    find v s key ctx =
      (some .eof, { ctx with hpos := hp, hslots := 0 },
        [.nums (headerOff (checksum key))]) := by
  rw [find, if_pos h0]
  simp [hr]

theorem empty_bucket_notfound_witness :
    find .reader ⟨2048, fun _ => 0⟩ [97] NewContext =
      (some .eof, { NewContext with hpos := 0, hslots := 0 },
        [.nums (headerOff (checksum [97]))]) :=
  empty_bucket_notfound .reader ⟨2048, fun _ => 0⟩ [97] NewContext 0 (by decide) (by decide)

/-- Claim C4: a slot whose `recordPos` field is 0 terminates the probe
step with the not-found result at once: the context is returned unchanged
(`loop` not incremented, `kpos` not advanced) and the trace holds only
the one slot read - no record read is performed. -/
theorem zero_slot_stops (v : Variant) (s : Storage) (key : List Nat) (ctx : Context) (h : Nat)
    (h0 : ctx.loop ≠ 0) (hlt : ctx.loop < ctx.hslots)
    (hr : readNumsAt s ctx.kpos = some (h, 0)) :
    find v s key ctx = (some .eof, ctx, [.nums ctx.kpos]) := by
  rw [find, if_neg h0]
  rw [show ctx.hslots - ctx.loop = (ctx.hslots - ctx.loop - 1) + 1 by omega, findLoop]
  simp [hr]

theorem zero_slot_stops_witness :
    find .mmap ⟨2056, fun _ => 0⟩ [97] ⟨1, 5, 2048, 2048, 2, 0, 0⟩ =
      (some .eof, ⟨1, 5, 2048, 2048, 2, 0, 0⟩, [.nums 2048]) :=
  zero_slot_stops .mmap ⟨2056, fun _ => 0⟩ [97] ⟨1, 5, 2048, 2048, 2, 0, 0⟩ 0
    (by decide) (by decide) (by decide)

/-- Claim C5: after a non-matching occupied slot the probe advances
`kpos` by 8 and wraps back to `hpos` exactly when `kpos` reaches
`hpos + 8 * hslots`; on the database `cfile5`, whose start index is the
last slot of the table and whose matching slot is the first, the key is
still found after the wrap (the trace shows the probe reads slot 2056,
wraps, reads slot 2048 and matches the record at 2064). -/
theorem probe_wraparound :
    (∀ (v : Variant) (s : Storage) (key : List Nat) (fuel : Nat) (ctx : Context) (h pos : Nat),
      readNumsAt s ctx.kpos = some (h, pos) → pos ≠ 0 → h ≠ ctx.khash →
      findLoop v s key (fuel + 1) ctx =
        ((findLoop v s key fuel { ctx with loop := ctx.loop + 1, kpos := nextKpos ctx }).1,
         (findLoop v s key fuel { ctx with loop := ctx.loop + 1, kpos := nextKpos ctx }).2.1,
         .nums ctx.kpos ::
           (findLoop v s key fuel { ctx with loop := ctx.loop + 1, kpos := nextKpos ctx }).2.2)) ∧
    (∀ ctx : Context,
      (w32 (ctx.kpos + 8) = w32 (ctx.hpos + w32 (ctx.hslots <<< 3)) →
        nextKpos ctx = ctx.hpos) ∧
      (w32 (ctx.kpos + 8) ≠ w32 (ctx.hpos + w32 (ctx.hslots <<< 3)) →
        nextKpos ctx = w32 (ctx.kpos + 8))) ∧
    find .mmap cfile5 [97] NewContext =
      (none, ⟨2, 177604, 2056, 2048, 2, 2073, 1⟩,
        [.nums 1568, .nums 2056, .nums 2048, .nums 2064, .keycmp 2072]) := by
  refine ⟨wrap_step_general, ?_, by decide⟩
  intro ctx
  constructor
  · intro hEq; rw [nextKpos, if_pos hEq]
  · intro hNe; rw [nextKpos, if_neg hNe]

theorem probe_wraparound_witness :
    findLoop .mmap cfile5 [97] 2 ⟨0, 177604, 2056, 2048, 2, 0, 0⟩ =
      (none, ⟨2, 177604, 2056, 2048, 2, 2073, 1⟩,
        [.nums 2056, .nums 2048, .nums 2064, .keycmp 2072]) := by
  have h := probe_wraparound.1 .mmap cfile5 [97] 1 ⟨0, 177604, 2056, 2048, 2, 0, 0⟩ 0 1
    (by decide) (by decide) (by decide)
  exact h.trans (by decide)

/-- Claim C3: a full match (slot hash equals the key hash, stored key
length equals the query key length, stored key bytes equal the key)
returns the match with `dpos = recordPos + 8 + keyLen` and `dlen` the
stored data length, leaving the context with `loop` incremented and
`kpos` advanced to the next slot, so the next step resumes the probe
there; in particular on `cfile3` (the key stored twice) `Find` returns
the record at 2064, `FindNext` on the returned context the record at
2074, and a third step the not-found result. -/
theorem match_found_step :
    (∀ (v : Variant) (s : Storage) (key : List Nat) (ctx : Context) (pos rdlen : Nat),
      ctx.loop ≠ 0 → ctx.loop < ctx.hslots →
      readNumsAt s ctx.kpos = some (ctx.khash, pos) → pos ≠ 0 →
      readNumsAt s pos = some (w32 key.length, rdlen) →
      matchAt v s key (w32 (pos + 8)) = .ok true →
      find v s key ctx =
        (none,
          { ctx with loop := ctx.loop + 1, kpos := nextKpos ctx,
                     dpos := w32 (pos + 8 + w32 key.length), dlen := rdlen },
          [.nums ctx.kpos, .nums pos, .keycmp (w32 (pos + 8))])) ∧
    Find .mmap cfile3 [97] NewContext =
      (none, ⟨1, 177604, 2048, 2048, 2, 2073, 1⟩,
        [.nums 1568, .nums 2056, .nums 2064, .keycmp 2072]) ∧
    FindNext .mmap cfile3 [97] ⟨1, 177604, 2048, 2048, 2, 2073, 1⟩ =
      (none, ⟨2, 177604, 2056, 2048, 2, 2083, 1⟩,
        [.nums 2048, .nums 2074, .keycmp 2082]) ∧
    FindNext .mmap cfile3 [97] ⟨2, 177604, 2056, 2048, 2, 2083, 1⟩ =
      (some .eof, ⟨2, 177604, 2056, 2048, 2, 2083, 1⟩, []) :=
  ⟨match_found_general, by decide, by decide, by decide⟩

theorem match_found_step_witness :
    find .mmap cfile3 [97] ⟨1, 177604, 2048, 2048, 2, 2073, 1⟩ =
      (none, ⟨2, 177604, 2056, 2048, 2, 2083, 1⟩,
        [.nums 2048, .nums 2074, .keycmp 2082]) := by
  have h := match_found_step.1 .mmap cfile3 [97] ⟨1, 177604, 2048, 2048, 2, 2073, 1⟩ 2074 1
    (by decide) (by decide) (by decide) (by decide) (by decide) (by rfl)
  exact h.trans (by decide)

/-- Claim C6: the probe loop runs only while `loop < hslots` and
increments `loop` on every iteration that does not return, so a step
visits at most `hslots - loop` further slots and the final `loop` never
exceeds `hslots`; a step entered with `loop` already at `hslots` (and
nonzero) returns the not-found result at once, reading nothing. -/
theorem probe_bounded :
    (∀ (v : Variant) (s : Storage) (key : List Nat) (ctx : Context),
      ctx.loop ≠ 0 → ctx.hslots ≤ ctx.loop →
      find v s key ctx = (some .eof, ctx, [])) ∧
    (∀ (v : Variant) (s : Storage) (key : List Nat) (fuel : Nat) (ctx : Context),
      ctx.loop ≤ (findLoop v s key fuel ctx).2.1.loop ∧
      (findLoop v s key fuel ctx).2.1.loop ≤ ctx.loop + fuel) ∧
    (∀ (v : Variant) (s : Storage) (key : List Nat) (ctx : Context),
      ctx.loop ≤ ctx.hslots →
      (find v s key ctx).2.1.loop ≤ (find v s key ctx).2.1.hslots) := by
  refine ⟨?_, ?_, ?_⟩
  · intro v s key ctx h0 hle
    rw [find, if_neg h0, show ctx.hslots - ctx.loop = 0 by omega]
    rfl
  · intro v s key fuel ctx
    exact ⟨(findLoop_inv v s key fuel ctx).2.2.2.1, (findLoop_inv v s key fuel ctx).2.2.2.2⟩
  · intro v s key ctx hle
    by_cases h0 : ctx.loop = 0
    · rw [find, if_pos h0]
      cases hr : readNumsAt s (headerOff (checksum key)) with
      | none => simpa [hr] using hle
      | some p =>
        obtain ⟨hp, hs⟩ := p
        simp only [hr]
        by_cases hz : hs = 0
        · simp [hz, h0]
        · simp only [hz, if_false]
          have hA := (findLoop_inv v s key hs
            ⟨ctx.loop, checksum key, w32 (hp + w32 (((checksum key >>> 8) % hs) <<< 3)),
              hp, hs, ctx.dpos, ctx.dlen⟩).2.1
          have hB := (findLoop_inv v s key hs
            ⟨ctx.loop, checksum key, w32 (hp + w32 (((checksum key >>> 8) % hs) <<< 3)),
              hp, hs, ctx.dpos, ctx.dlen⟩).2.2.2.2
          dsimp only at hA hB
          simp
          omega
    · rw [find, if_neg h0]
      have h1 := (findLoop_inv v s key (ctx.hslots - ctx.loop) ctx).2.1
      have h2 := (findLoop_inv v s key (ctx.hslots - ctx.loop) ctx).2.2.2.2
      omega

theorem probe_bounded_witness :
    find .mmap cfile3 [97] ⟨2, 177604, 2056, 2048, 2, 2083, 1⟩ =
      (some .eof, ⟨2, 177604, 2056, 2048, 2, 2083, 1⟩, []) :=
  probe_bounded.1 .mmap cfile3 [97] ⟨2, 177604, 2056, 2048, 2, 2083, 1⟩
    (by decide) (by decide)

/-- Claim C1 (amended): when a probed slot stores the key hash and a
`recordPos` whose 8-byte record read crosses the end of the file, the
mmap variant of the step returns the recovered bounds error - a value
distinct from the `io.EOF` not-found signal - while the reader variant
surfaces the underlying `ReadAt` failure verbatim, which for a
file-backed reader at an out-of-range offset is `io.EOF` itself, the
same value as the not-found signal; on the concrete corrupt database
`cfile1` the first mmap step returns the bounds error. -/
theorem truncated_record_read :
    (∀ (s : Storage) (key : List Nat) (ctx : Context) (pos : Nat),
      ctx.loop ≠ 0 → ctx.loop < ctx.hslots →
      readNumsAt s ctx.kpos = some (ctx.khash, pos) → pos ≠ 0 → s.size < pos + 8 →
      find .mmap s key ctx =
        (some .bounds, { ctx with loop := ctx.loop + 1, kpos := nextKpos ctx },
          [.nums ctx.kpos, .nums pos]) ∧
      find .reader s key ctx =
        (some .eof, { ctx with loop := ctx.loop + 1, kpos := nextKpos ctx },
          [.nums ctx.kpos, .nums pos])) ∧
    (find .mmap cfile1 [97] NewContext).1 = some GoError.bounds ∧
    GoError.bounds ≠ GoError.eof :=
  ⟨truncated_general, by decide, by decide⟩

theorem truncated_record_read_witness :
    find .mmap cfile1 [97] ⟨1, 177604, 2048, 2048, 2, 0, 0⟩ =
      (some .bounds, ⟨2, 177604, 2056, 2048, 2, 0, 0⟩, [.nums 2048, .nums 5000]) ∧
    find .reader cfile1 [97] ⟨1, 177604, 2048, 2048, 2, 0, 0⟩ =
      (some .eof, ⟨2, 177604, 2056, 2048, 2, 0, 0⟩, [.nums 2048, .nums 5000]) := by
  have h := truncated_record_read.1 cfile1 [97] ⟨1, 177604, 2048, 2048, 2, 0, 0⟩ 5000
    (by decide) (by decide) (by decide) (by decide) (by decide)
  exact ⟨h.1.trans (by decide), h.2.trans (by decide)⟩

/-- Claim C1 counterexample: on `cfile1`, whose only slot stores
`recordPos = 5000` pointing past the 2056-byte end of the file, the
reader-variant step that reaches the record read at 5000 (the trace ends
with that read) returns `eof` - the very value used for the
not-found signal - not an error distinguishable from it. -/
theorem reader_truncated_eof :
    find .reader cfile1 [97] NewContext =
      (some GoError.eof, ⟨1, 177604, 2048, 2048, 1, 0, 0⟩,
        [.nums 1568, .nums 2048, .nums 5000]) ∧
    cfile1.size < 5000 + 8 := by
  exact ⟨by decide, by decide⟩

/-- Claim C9 (amended): the two backing variants agree - same
found/not-found outcome, same `dpos`/`dlen`, same resulting context and
trace - on every file, key and context for which the mmap step does not
report a bounds (out-of-range) failure; they differ on corrupt files
where an out-of-range read is reached, as the mmap variant reports a
bounds error while the reader variant reports `eof`. -/
theorem variants_agree (s : Storage) (key : List Nat) (ctx : Context)
    (hb : (find .mmap s key ctx).1 ≠ some .bounds) :
    find .reader s key ctx = find .mmap s key ctx := by
  rw [find] at hb ⊢
  conv_rhs => rw [find]
  by_cases h0 : ctx.loop = 0
  · simp only [h0, if_true] at hb ⊢
    cases hr : readNumsAt s (headerOff (checksum key)) with
    | none => simp only [hr, readErr] at hb; simp at hb
    | some p =>
      obtain ⟨hp, hs⟩ := p
      simp only [hr] at hb ⊢
      by_cases hz : hs = 0
      · simp [hz]
      · simp only [hz, if_false] at hb ⊢
        rw [findLoop_agree s key _ _ hb]
  · simp only [h0, if_false] at hb ⊢
    exact findLoop_agree s key _ _ hb

theorem variants_agree_witness :
    find .reader cfile3 [97] NewContext = find .mmap cfile3 [97] NewContext :=
  variants_agree cfile3 [97] NewContext (by decide)

/-- Claim C9 counterexample: on the corrupt database `cfile1` the two
variants disagree from the same fresh context: the mmap step returns the
bounds error while the reader step returns `eof`. -/
theorem variants_differ :
    (find .mmap cfile1 [97] NewContext).1 = some GoError.bounds ∧
    (find .reader cfile1 [97] NewContext).1 = some GoError.eof ∧
    find .mmap cfile1 [97] NewContext ≠ find .reader cfile1 [97] NewContext := by
  exact ⟨by decide, by decide, by decide⟩

/-- Claim C10: a `FindNext` on a context fresh from `NewContext`
(`loop = 0`) is the same step as `Find` with that key: `FindStart` on a
fresh context changes nothing, so both recompute the hash and start the
probe from scratch. -/
theorem findNext_fresh_eq_find (v : Variant) (s : Storage) (key : List Nat) :
    FindNext v s key NewContext = Find v s key NewContext := rfl

end Cdb
